import Mathlib

/-!
Verification of the core of usch.h (arena/"stash" manager, tokenizer,
glob expansion, builtin dispatch, executable resolution, process reaper)
against its natural-language specification.

Strings are modelled as `List Char` (the bytes of a NUL-terminated C string,
NUL excluded) or as Lean `String` where convenient; NULL pointers are
modelled by `Option`; `calloc`/`malloc` outcomes that a claim depends on are
explicit `Bool` parameters.  OS-level effects (glob(3), stat(2), waitpid(2),
fork/chdir) are modelled by explicit function parameters or event lists.
-/

namespace Usch

/-- NUL byte, used when modelling C buffers obtained from `calloc`. -/
def nulChar : Char := Char.ofNat 0

/-! ## Tokenizer: `ustrsplit` (src/usch.h lines 319-383)

The C function copies the input, overwrites every byte that matches a
delimiter with `'\0'`, and records a slot pointer right after each such
byte (plus one slot at the start).  Reading the resulting NUL-terminated
slots is exactly: every delimiter byte ends the current slot and starts a
new one at the following position.  (A delimiter byte is compared against
the original character: the inner `j` loop overwrites the byte on the first
match, and `'\0'` is never a member of a C delimiter string, so duplicate
members of the delimiter set cannot fire twice at one position.) -/

/-- Slot decomposition produced by `ustrsplit`'s marking loop: each byte
that is a member of `delims` terminates the current slot and opens a new
one immediately after it.  The result always has at least one slot
(`pp_out[0]` points at the start of the copy). -/
def ustrsplitCh (delims : List Char) : List Char → List (List Char)
  | [] => [[]]
  | c :: rest =>
      let r := ustrsplitCh delims rest
      if c ∈ delims then [] :: r
      else (c :: r.headI) :: r.tail

/-- `ustrjoinv` (src/usch.h lines 551-598): copies each string of the
vector into one buffer back to back, no separator, then NUL-terminates. -/
def ustrjoinv (pp_strings : List (List Char)) : List Char :=
  pp_strings.flatten

/-- Full `ustrsplit` including its error paths (src/usch.h lines 319-383).
`p_ustash`, `p_in`, `p_delims` are `none` when the C caller passes NULL;
`allocOk` is the outcome of the single `calloc`.  The C code jumps to
`end:` and returns the still-NULL `pp_out` on any parameter error and on
allocation failure, so those paths yield `none` (a NULL pointer), not a
sentinel vector.  (`priv_usch_stash` cannot fail once `p_ustash ≠ NULL`.) -/
def ustrsplitFull (p_ustash : Option Unit) (p_in : Option (List Char))
    (p_delims : Option (List Char)) (allocOk : Bool) :
    Option (List (List Char)) :=
  match p_ustash, p_in, p_delims with
  | some _, some s, some d => if allocOk then some (ustrsplitCh d s) else none
  | _, _, _ => none

/-! ## Arena manager: `uclear` (src/usch.h lines 300-317) -/

/-- A stash block; only its identity matters for the ownership claims, so
it is a bare identifier. -/
abbrev StashItem := Nat

/-- The `ustash` handle: `p_list` is the linked list of stashed blocks,
head = most recently pushed. -/
structure ustash where
  p_list : List StashItem
deriving DecidableEq, Repr

/-- `uclear` on a non-NULL handle: if the list is empty it returns at once
(frees nothing, changes nothing); otherwise it walks the list, frees every
block, and resets `p_list` to NULL.  The second component is the list of
blocks passed to `free`, in traversal order. -/
def uclear (s : ustash) : ustash × List StashItem :=
  if s.p_list = [] then (s, [])
  else (⟨[]⟩, s.p_list)

/-- `uclear` including the NULL-pointer guard: called with NULL it returns
immediately, freeing nothing and touching no state. -/
def uclearFull (p_ustash : Option ustash) : Option ustash × List StashItem :=
  match p_ustash with
  | none => (none, [])
  | some s => let r := uclear s; (some r.1, r.2)

/-! ## Glob expansion: `priv_usch_globexpand` (src/usch.h lines 689-750)

`glob(3)` is the OS boundary: it is modelled by a parameter
`globFn : String → Option (List String)` (`none` = a genuine glob error,
which makes the C function `goto end` and return NULL).  The output buffer
is modelled index-exactly: a `calloc`-zeroed pointer array (`none` slots)
of the size the C code computes, written at the indices the C code uses;
a write past the end of the allocation (heap overflow in C) leaves the
buffer unchanged and raises the out-of-bounds flag. -/

/-- One store `pp_expanded_argv[i] = v`; the `Bool` records whether the
index was outside the allocation. -/
def bufWrite (buf : List (Option String)) (i : Nat) (v : String) :
    List (Option String) × Bool :=
  if i < buf.length then (buf.set i (some v), false) else (buf, true)

/-- Consecutive stores at `start`, `start+1`, …, accumulating the
out-of-bounds flag. -/
def writeSeq : List (Option String) → Nat → List String →
    List (Option String) × Bool
  | buf, _, [] => (buf, false)
  | buf, start, v :: vs =>
      let r := bufWrite buf start v
      let r2 := writeSeq r.1 (start + 1) vs
      (r2.1, r.2 || r2.2)

/-- The scanning loop of `priv_usch_globexpand`: walk the arguments until
the literal separator `"--"` (which is counted in `orig_arg_idx` and then
breaks) or the end; glob each pre-separator argument, failing the whole
call on a glob error.  Returns (per-argument match lists, `orig_arg_idx`,
whether the separator was seen). -/
def globScan (globFn : String → Option (List String)) :
    List String → Option (List (List String) × Nat × Bool)
  | [] => some ([], 0, false)
  | a :: rest =>
      if a = "--" then some ([], 1, true)
      else
        match globFn a with
        | none => none
        | some m =>
            match globScan globFn rest with
            | none => none
            | some (ls, idx, sep) => some (m :: ls, idx + 1, sep)

/-- Value of the C loop variable `j` after the glob-copy loop: the match
count of the last glob node (0 when there is none; the `for` initializer
resets `j` to 0 even for an empty node). -/
def lastLen : List (List String) → Nat
  | [] => 0
  | [l] => l.length
  | _ :: ls => lastLen ls

/-- `priv_usch_globexpand`: allocate
`num_glob_items + num_args - orig_arg_idx + 1` NULL slots, copy the glob
results sequentially from index 0, then copy each remaining original
argument `i ∈ [orig_arg_idx, num_args)` to index `j + i` — the exact index
expression of the C tail-copy loop.  Returns NULL on a glob error. -/
def priv_usch_globexpand (globFn : String → Option (List String))
    (args : List String) : Option (List (Option String) × Bool) :=
  match globScan globFn args with
  | none => none
  | some (ls, idx, _) =>
      let numGlob := (ls.map List.length).sum
      let size := numGlob + (args.length - idx) + 1
      let buf0 := List.replicate size (none : Option String)
      let r1 := writeSeq buf0 0 ls.flatten
      let j := lastLen ls
      let r2 := writeSeq r1.1 (j + idx) (args.drop idx)
      some (r2.1, r1.2 || r2.2)

/-- The glob call as issued by usch: `glob(pat, GLOB_MARK | GLOB_NOCHECK |
GLOB_TILDE | GLOB_NOMAGIC | GLOB_BRACE, NULL, …)`.  Per glob(3),
`GLOB_NOCHECK`/`GLOB_NOMAGIC` make a pattern with zero filesystem matches
return the pattern itself as its only result instead of `GLOB_NOMATCH`;
`fs` gives the filesystem's matches for a pattern. -/
def globNoCheck (fs : String → List String) (pat : String) :
    Option (List String) :=
  some (if fs pat = [] then [pat] else fs pat)

/-- The match list one argument contributes under `GLOB_NOCHECK`:
its filesystem matches, or the argument itself when there are none. -/
def globLit (fs : String → List String) (a : String) : List String :=
  if fs a = [] then [a] else fs a

/-! ## Executable resolution: `priv_usch_cached_whereis`
(src/usch.h lines 601-687)

`stat(2)` is the OS boundary, modelled by `ex : String → Bool` (does a
filesystem entry exist at that path).  The C code dispatches on the FIRST
character of the name only; in the `'/'`/`'.'` branch it allocates a
zero-filled copy (`calloc`) and scans THAT copy — never the input — for the
last `'/'`, so `basename_index` stays -1 and the branch fails. -/

/-- Reading a C string out of a byte buffer: the bytes before the first
NUL. -/
def cString (l : List Char) : List Char :=
  l.takeWhile (fun c => c ≠ nulChar)

/-- The `basename_index` scan: the index of the last `'/'` in the buffer,
`none` when there is none (`basename_index < 0`). -/
def lastSlashIdx (l : List Char) : Option Nat :=
  l.enum.foldl (fun acc p => if p.2 = '/' then some p.1 else acc) none

/-- The probe loop: for each directory in order build `dir ++ "/" ++ item`;
return status 1 and that path on the first existing entry, status 0 and no
path when the loop ends. -/
def probeLoop (ex : String → Bool) (item : String) :
    List String → Int × Option String
  | [] => (0, none)
  | d :: ds =>
      let np := d ++ "/" ++ item
      if ex np then (1, some np) else probeLoop ex item ds

/-- `priv_usch_cached_whereis` as (status, resolved path).  Names whose
first byte is `'/'` or `'.'` enter the relative branch: the `'/'`-scan runs
over the zero-filled `p_item_copy` (the input is never copied into it), and
a missing `'/'` means status -1 with no path; all other names probe the
cached search-path directories in order. -/
def priv_usch_cached_whereis (pp_cached_path : List String)
    (p_search_item : String) (ex : String → Bool) : Int × Option String :=
  match p_search_item.data.head? with
  | some c =>
      if c = '/' ∨ c = '.' then
        let copy := List.replicate p_search_item.data.length nulChar
        match lastSlashIdx copy with
        | none => (-1, none)
        | some bi =>
            let dir := String.mk (cString (copy.take bi))
            let base := String.mk (cString (copy.drop (bi + 1)))
            probeLoop ex base [dir]
      else probeLoop ex p_search_item pp_cached_path
  | none => probeLoop ex p_search_item pp_cached_path

/-! ## Pipeline executor dispatch: `priv_usch_cmd_arr`
(src/usch.h lines 769-847)

Only the part the `cd` claim depends on is modelled concretely: the
in-place rewrite of every slot whose first byte is `'|'` to NULL, and the
builtin interception that follows it.  The non-builtin fork/exec path is an
opaque parameter `pipeline` (its OS effects are not pure), so the theorem
holds for every possible behaviour of that path. -/

/-- Observable effects of one `priv_usch_cmd_arr` call: the arguments of
every `chdir` issued in the calling process (`none` = a NULL pointer from
`getenv("HOME")` when HOME is unset), and the number of processes forked. -/
structure CmdEffects where
  chdirCalls : List (Option String)
  spawnCount : Nat
deriving DecidableEq, Repr

/-- The pipe-separator rewrite: every slot whose first byte is `'|'`
becomes NULL; other slots are untouched. -/
def pipeRewrite (argv : List String) : List (Option String) :=
  argv.map fun s =>
    match s.data with
    | [] => some s
    | c :: _ => if c = '|' then none else some s

/-- The `chdir` argument in the `cd` branch: `pp_argv[1]` when that slot is
non-NULL after the rewrite, otherwise `getenv("HOME")`. -/
def cdTargetSlot (rw : List (Option String)) (home : Option String) :
    Option String :=
  match rw[1]? with
  | some (some t) => some t
  | _ => home

/-- `priv_usch_cmd_arr` after expansion: rewrite pipe slots, then if slot 0
is (non-NULL and) literally "cd", `chdir` in the calling process and fork
nothing; otherwise hand the rewritten argv to the fork/exec stage loop. -/
def priv_usch_cmd_arr (argv : List String) (home : Option String)
    (pipeline : List (Option String) → CmdEffects) : CmdEffects :=
  let rw := pipeRewrite argv
  match rw.head? with
  | some (some s) =>
      if s = "cd" then { chdirCalls := [cdTargetSlot rw home], spawnCount := 0 }
      else pipeline rw
  | _ => pipeline rw

/-! ## Process reaper: `priv_usch_waitforall` (src/usch.h lines 962-997)

`waitpid(2)` is the OS boundary: the successive results it would deliver
are an explicit event list.  Each iteration of the do/while loop consumes
one event; `wpid == -1` is `perror` + `exit(EXIT_FAILURE)` of the host
process; `WIFEXITED` yields `WEXITSTATUS` (the low 8 bits of the exit
code); `WIFSIGNALED` yields -1 and, like exit, ends the loop;
stopped/continued/unrecognized statuses set -1 but loop again.  An
exhausted event list means the process is still blocked in `waitpid`. -/

/-- One `waitpid` result for the watched pid. -/
inductive WaitEvent where
  | exited (code : Nat)
  | signaled
  | stopped
  | continued
  | other
  | waitfail
deriving DecidableEq, Repr

/-- How a `priv_usch_waitforall` call ends. -/
inductive WaitOutcome where
  | returns (status : Int)
  | hostExit
  | blocked
deriving DecidableEq, Repr

/-- The reaper loop over the stream of `waitpid` results. -/
def priv_usch_waitforall : List WaitEvent → WaitOutcome
  | [] => .blocked
  | e :: rest =>
      match e with
      | .waitfail => .hostExit
      | .exited c => .returns (Int.ofNat (c % 256))
      | .signaled => .returns (-1)
      | .stopped => priv_usch_waitforall rest
      | .continued => priv_usch_waitforall rest
      | .other => priv_usch_waitforall rest

/-! ## Pointer provenance of the documented entry points (C9)

Ownership-level models of `ustrsplit`, `ustrjoinv`, `ustrexpv`: what kind
of pointer each returns and how the caller's stash list changes.  Blocks
are identified by a caller-chosen fresh id; pushing is head insertion
(`priv_usch_stash`).  `ustrexpv` reads `pp_strings[0]` before its NULL
check, so a NULL `pp_strings` crashes before any return — only non-NULL
vectors produce a returned pointer. -/

/-- Provenance of a returned pointer. -/
inductive RetPtr where
  | null
  | sentinel
  | arenaBlock (b : StashItem)
deriving DecidableEq, Repr

/-- `ustrsplit` at the pointer level: NULL on any parameter error or
allocation failure; otherwise the slot vector lives inside the one block
pushed onto the stash. -/
def ustrsplitPtr (stash : Option (List StashItem))
    (p_in p_delims : Option (List Char)) (allocOk : Bool)
    (fresh : StashItem) : RetPtr × Option (List StashItem) :=
  match stash, p_in, p_delims with
  | some st, some _, some _ =>
      if allocOk then (.arenaBlock fresh, some (fresh :: st))
      else (.null, some st)
  | _, _, _ => (.null, stash)

/-- `ustrjoinv` at the pointer level: the static empty string on a NULL
vector, allocation failure, or stash failure (NULL stash); otherwise the
joined string lives inside the pushed block. -/
def ustrjoinvPtr (stash : Option (List StashItem))
    (pp_strings : Option (List (List Char))) (allocOk : Bool)
    (fresh : StashItem) : RetPtr × Option (List StashItem) :=
  match pp_strings with
  | none => (.sentinel, stash)
  | some _ =>
      if allocOk then
        match stash with
        | some st => (.arenaBlock fresh, some (fresh :: st))
        | none => (.sentinel, none)
      else (.sentinel, stash)

/-- `ustrexpv` at the pointer level: the static empty vector on a glob
error, allocation failure, or stash failure; otherwise the expanded vector
lives inside the pushed block. -/
def ustrexpvPtr (stash : Option (List StashItem)) (globOk allocOk : Bool)
    (fresh : StashItem) : RetPtr × Option (List StashItem) :=
  if globOk then
    if allocOk then
      match stash with
      | some st => (.arenaBlock fresh, some (fresh :: st))
      | none => (.sentinel, none)
    else (.sentinel, stash)
  else (.sentinel, stash)

/-- The ownership invariant of C9: the returned pointer is the static
sentinel, or it points into a block present in the caller's stash after
the call. -/
def ownedOrSentinel (r : RetPtr × Option (List StashItem)) : Prop :=
  r.1 = .sentinel ∨
    ∃ b, r.1 = .arenaBlock b ∧ ∃ st, r.2 = some st ∧ b ∈ st

end Usch

namespace Usch

/-! ## Helper lemmas for the split/join round trip -/

theorem ustrsplitCh_ne_nil (delims : List Char) (s : List Char) :
    ustrsplitCh delims s ≠ [] := by
  cases s with
  | nil => simp [ustrsplitCh]
  | cons c rest =>
      simp only [ustrsplitCh]
      by_cases h : c ∈ delims
      · simp [h]
      · simp [h]

theorem intercalate_cons_cons (sep : List Char) (c : Char)
    (h : List Char) (t : List (List Char)) :
    List.intercalate sep ((c :: h) :: t) =
      c :: List.intercalate sep (h :: t) := by
  cases t <;> simp [List.intercalate]

/-- Round trip for a single-character delimiter set: re-inserting the
delimiter byte between the slots of `ustrsplitCh` and concatenating
reproduces the input. -/
theorem intercalate_ustrsplitCh (d : Char) (s : List Char) :
    List.intercalate [d] (ustrsplitCh [d] s) = s := by
  induction s with
  | nil => simp [ustrsplitCh, List.intercalate]
  | cons c rest ih =>
      simp only [ustrsplitCh]
      by_cases h : c ∈ [d]
      · have hc : c = d := by simpa using h
        subst hc
        simp only [h, if_true]
        have hne := ustrsplitCh_ne_nil [c] rest
        cases hr : ustrsplitCh [c] rest with
        | nil => exact absurd hr hne
        | cons a l =>
            rw [hr] at ih
            simp [List.intercalate] at ih ⊢
            simpa using ih
      · simp only [h, if_false]
        have hne := ustrsplitCh_ne_nil [d] rest
        cases hr : ustrsplitCh [d] rest with
        | nil => exact absurd hr hne
        | cons a l =>
            rw [hr] at ih
            simp only [List.headI, List.tail]
            rw [intercalate_cons_cons]
            rw [ih]

/-! ## Claim theorems -/

/-- C2: for every string and every single-character delimiter set (bytes of
a C string, so NUL-free), splitting with `ustrsplit` and rejoining the
resulting slots with the original delimiter byte interposed (`ustrjoinv`
applied to the slots with the one-byte delimiter string in between)
reproduces the original string exactly. -/
theorem ustrsplit_join_roundtrip (s : List Char) (d : Char)
    (hs : nulChar ∉ s) (hd : d ≠ nulChar) :
    ustrjoinv (List.intersperse [d] (ustrsplitCh [d] s)) = s := by
  have hj : ustrjoinv (List.intersperse [d] (ustrsplitCh [d] s)) =
      List.intercalate [d] (ustrsplitCh [d] s) := by
    simp [ustrjoinv, List.intercalate]
  rw [hj, intercalate_ustrsplitCh]

/-- Witness for C2 at the concrete string "a,b" with delimiter ','. -/
theorem ustrsplit_join_roundtrip_witness :
    nulChar ∉ ['a', ',', 'b'] ∧ (',' : Char) ≠ nulChar ∧
    ustrjoinv (List.intersperse [','] (ustrsplitCh [','] ['a', ',', 'b'])) =
      ['a', ',', 'b'] :=
  ⟨by decide, by decide,
    ustrsplit_join_roundtrip ['a', ',', 'b'] ',' (by decide) (by decide)⟩

/-- C5: contrary to the claim (and to the source's own doc comment, which
promises a "1 element NUL terminated vector upon error"), `ustrsplit`
returns NULL — not the one-empty-slot sentinel vector — both when a
parameter is NULL and when its allocation fails. -/
theorem ustrsplit_error_returns_null :
    ustrsplitFull (some ()) none (some [',']) true = none ∧
    ustrsplitFull (some ()) (some ['a']) (some [',']) false = none ∧
    (none : Option (List (List Char))) ≠ some [[]] := by
  refine ⟨rfl, rfl, by decide⟩

/-- C8: `uclear` is total and idempotent over arena states: one call leaves
the block list empty, and a second consecutive call (also starting from a
never-used or already-empty arena) is safe, frees nothing, and leaves the
arena empty. -/
theorem uclear_idempotent (s : ustash) :
    (uclear s).1 = ⟨[]⟩ ∧ uclear (uclear s).1 = (⟨[]⟩, []) := by
  cases s with
  | mk l =>
      cases l with
      | nil => exact ⟨rfl, rfl⟩
      | cons b bs =>
          constructor
          · simp [uclear]
          · simp [uclear]

/-- C10: calling `uclear` with a NULL stash pointer returns immediately:
no block is freed and no state is modified. -/
theorem uclear_null_noop : uclearFull none = (none, []) := rfl

/-! ## Glob-expansion lemmas -/

theorem bufWrite_cons_succ (x : Option String) (buf : List (Option String))
    (start : Nat) (v : String) :
    bufWrite (x :: buf) (start + 1) v =
      (x :: (bufWrite buf start v).1, (bufWrite buf start v).2) := by
  simp only [bufWrite, List.length_cons, Nat.add_lt_add_iff_right]
  by_cases h : start < buf.length
  · simp [h, List.set]
  · simp [h]

theorem writeSeq_cons_succ (l : List String) (x : Option String)
    (buf : List (Option String)) (start : Nat) :
    writeSeq (x :: buf) (start + 1) l =
      (x :: (writeSeq buf start l).1, (writeSeq buf start l).2) := by
  induction l generalizing x buf start with
  | nil => simp [writeSeq]
  | cons v vs ih =>
      simp only [writeSeq, bufWrite_cons_succ]
      rw [ih]

theorem writeSeq_fill (l : List String) (k : Nat) :
    writeSeq (List.replicate (l.length + k) (none : Option String)) 0 l =
      (l.map some ++ List.replicate k none, false) := by
  induction l generalizing k with
  | nil => simp [writeSeq]
  | cons v vs ih =>
      have hlen : (v :: vs).length + k = (vs.length + k) + 1 := by
        simp [List.length_cons]; omega
      rw [hlen, List.replicate_succ]
      simp only [writeSeq]
      have hw : bufWrite
          ((none : Option String) :: List.replicate (vs.length + k) none) 0 v =
          (some v :: List.replicate (vs.length + k) none, false) := by
        simp [bufWrite, List.set]
      rw [hw]
      simp only []
      rw [writeSeq_cons_succ, ih]
      simp

theorem globScan_no_sep (fs : String → List String) (args : List String)
    (h : "--" ∉ args) :
    globScan (globNoCheck fs) args =
      some (args.map (globLit fs), args.length, false) := by
  induction args with
  | nil => simp [globScan]
  | cons a rest ih =>
      have ha : a ≠ "--" := fun he => h (he ▸ List.mem_cons_self a rest)
      have hrest : "--" ∉ rest := fun he => h (List.mem_cons_of_mem a he)
      simp only [globScan, ha, if_false, globNoCheck, ih hrest]
      rfl

theorem globexpand_no_sep (fs : String → List String) (args : List String)
    (h : "--" ∉ args) :
    priv_usch_globexpand (globNoCheck fs) args =
      some (((args.map (globLit fs)).flatten).map some ++ [none], false) := by
  rw [priv_usch_globexpand, globScan_no_sep fs args h]
  simp only [List.drop_length, Nat.sub_self]
  have hsum : ((args.map (globLit fs)).map List.length).sum =
      ((args.map (globLit fs)).flatten).length := by
    simp [List.length_flatten]
  rw [hsum]
  have hfill := writeSeq_fill ((args.map (globLit fs)).flatten) 1
  simp only [hfill]
  simp [writeSeq, List.replicate]

/-- C1 (code bug): with the separator present the tail is NOT placed right
after the glob results.  With an identity glob (`fs` matching nothing, so
every pattern expands to itself), `["a", "--", "x"]` allocates the 3-slot
buffer {glob results, tail, terminator} but writes the tail at index
`j + i` = 1 + 2 = 3 — one past the allocation (heap overflow, flag true) —
leaving slot 1 NULL, so the argv a caller reads back ends after "a" and
never contains the passthrough "x"; and with `["--", "x"]` the tail lands
at index 1 instead of 0, so the resulting argv is empty.  The claimed
layouts would be `[some "a", some "x", none]` and `[some "x", none]`. -/
theorem globexpand_tail_misplaced :
    priv_usch_globexpand (fun s => some [s]) ["a", "--", "x"] =
      some ([some "a", none, none], true) ∧
    priv_usch_globexpand (fun s => some [s]) ["--", "x"] =
      some ([none, some "x"], false) := by
  exact ⟨rfl, rfl⟩

/-- Counterexample for C7 as stated: in `["m", "z", "--", "x"]` with "m"
matching four entries and "z" matching none, "z" is a pre-separator
argument with zero matches, `GLOB_NOCHECK` places it unchanged in the
glob-results region (slot 4 of the 7-slot buffer) — but the tail-copy
write at `j + i` = 1 + 3 = 4 then overwrites that very slot with "x"
in-bounds, so "z" is not an element of the output at all. -/
theorem globexpand_nomatch_overwritten :
    (fun s => if s = "m" then ["m1", "m2", "m3", "m4"] else []) "z" = [] ∧
    priv_usch_globexpand
        (globNoCheck (fun s => if s = "m" then ["m1", "m2", "m3", "m4"] else []))
        ["m", "z", "--", "x"] =
      some ([some "m1", some "m2", some "m3", some "m4", some "x",
             none, none], false) ∧
    some "z" ∉
      [some "m1", some "m2", some "m3", some "m4", some "x",
       none, (none : Option String)] := by
  exact ⟨rfl, rfl, by decide⟩

/-- C7 (amended): in an argument sequence containing no separator token, an
argument whose pattern matches zero filesystem entries is returned
unchanged as a single element of the output, in its place between its
neighbours' expansions; zero matches is never an error (the call returns a
buffer, not NULL) and no out-of-bounds write occurs.  (With a separator
present, the misplaced tail copy of C1 can overwrite such a literal, so
the guarantee is restricted to separator-free sequences.) -/
theorem globexpand_nomatch_literal (fs : String → List String)
    (pre post : List String) (pat : String) (hfs : fs pat = [])
    (h : "--" ∉ pre ++ pat :: post) :
    priv_usch_globexpand (globNoCheck fs) (pre ++ pat :: post) =
      some (((pre.map (globLit fs)).flatten ++ [pat] ++
             (post.map (globLit fs)).flatten).map some ++ [none], false) := by
  rw [globexpand_no_sep fs _ h]
  simp [globLit, hfs]

/-- Witness for C7: pattern "*.z" matching nothing, between "a" (matching
nothing, hence literal) and "b". -/
theorem globexpand_nomatch_literal_witness :
    (fun _ : String => ([] : List String)) "*.z" = [] ∧
    "--" ∉ ["a", "*.z", "b"] ∧
    priv_usch_globexpand (globNoCheck (fun _ => [])) ["a", "*.z", "b"] =
      some ([some "a", some "*.z", some "b", none], false) := by
  refine ⟨rfl, by decide, ?_⟩
  have hmain := globexpand_nomatch_literal (fun _ => ([] : List String))
    ["a"] ["b"] "*.z" rfl (by decide)
  simpa [globLit] using hmain

/-! ## Executable-resolution lemmas -/

theorem foldl_no_slash (ps : List (Nat × Char)) (acc : Option Nat)
    (h : ∀ p ∈ ps, p.2 ≠ '/') :
    ps.foldl (fun acc p => if p.2 = '/' then some p.1 else acc) acc = acc := by
  induction ps generalizing acc with
  | nil => rfl
  | cons p ps ih =>
      have hp : p.2 ≠ '/' := h p (List.mem_cons_self p ps)
      have hps : ∀ q ∈ ps, q.2 ≠ '/' := fun q hq => h q (List.mem_cons_of_mem p hq)
      simp only [List.foldl_cons, if_neg hp]
      exact ih acc hps

theorem lastSlashIdx_replicate (n : Nat) :
    lastSlashIdx (List.replicate n nulChar) = none := by
  unfold lastSlashIdx
  apply foldl_no_slash
  intro p hp
  have hmem : p.2 ∈ List.replicate n nulChar := by
    rw [List.enum_eq_zip_range] at hp
    exact (List.of_mem_zip hp).2
  have : p.2 = nulChar := List.eq_of_mem_replicate hmem
  rw [this]
  decide

theorem probeLoop_eq_find (ex : String → Bool) (item : String)
    (ds : List String) :
    probeLoop ex item ds =
      match ds.find? (fun d => ex (d ++ "/" ++ item)) with
      | some d => (1, some (d ++ "/" ++ item))
      | none => (0, none) := by
  induction ds with
  | nil => rfl
  | cons d ds ih =>
      by_cases h : ex (d ++ "/" ++ item)
      · simp [probeLoop, h, List.find?_cons_of_pos]
      · rw [List.find?_cons_of_neg]
        · simpa [probeLoop, h] using ih
        · simpa using h

/-- C6 (amended): resolution dispatches on the first character only.  A
name whose first byte is `'/'` or `'.'` takes the relative branch, which
scans a zero-filled copy of the name for `'/'` and therefore always fails
with status -1 and no path; every other name — including one that contains
`'/'` later — is probed through the search-path directories in order, and
the first concatenated `dir/name` with an existing filesystem entry
(existence only) is returned with status 1, or status 0 with no path when
none exists. -/
theorem whereis_resolution (path : List String) (item : String)
    (ex : String → Bool) :
    ((item.data.head? = some '/' ∨ item.data.head? = some '.') →
        priv_usch_cached_whereis path item ex = (-1, none)) ∧
    (item.data.head? ≠ some '/' → item.data.head? ≠ some '.' →
        priv_usch_cached_whereis path item ex =
          match path.find? (fun d => ex (d ++ "/" ++ item)) with
          | some d => (1, some (d ++ "/" ++ item))
          | none => (0, none)) := by
  constructor
  · intro h
    cases hd : item.data.head? with
    | none => rw [hd] at h; rcases h with h | h <;> exact absurd h (by simp)
    | some c =>
        rw [hd] at h
        have hc : c = '/' ∨ c = '.' := by
          rcases h with h | h <;> [left; right] <;> exact Option.some.inj h
        unfold priv_usch_cached_whereis
        rw [hd]
        simp only [if_pos hc, lastSlashIdx_replicate]
  · intro h1 h2
    cases hd : item.data.head? with
    | none =>
        unfold priv_usch_cached_whereis
        rw [hd, ← probeLoop_eq_find]
    | some c =>
        rw [hd] at h1 h2
        have hc : ¬(c = '/' ∨ c = '.') := by
          rintro (rfl | rfl)
          · exact h1 rfl
          · exact h2 rfl
        unfold priv_usch_cached_whereis
        rw [hd]
        simp only [if_neg hc]
        exact probeLoop_eq_find ex item path

/-- Counterexample for C6 as stated: (a) "./x" starts with '.', so by the
claim it should resolve relative to its own directory component — with a
filesystem where every path exists — yet the call fails with (-1, NULL);
(b) "b/x" contains a path separator, so by the claim it should not be
searched through the path list, yet it is probed and found as "/a/b/x". -/
theorem whereis_claim_counterexample :
    priv_usch_cached_whereis ["/usr"] "./x" (fun _ => true) = (-1, none) ∧
    priv_usch_cached_whereis ["/a"] "b/x" (fun p => p == "/a/b/x") =
      (1, some "/a/b/x") := by
  exact ⟨rfl, rfl⟩

/-- Witness for C6 (amended) at a name with no leading '/' or '.'. -/
theorem whereis_resolution_witness :
    priv_usch_cached_whereis ["/o", "/a"] "x" (fun p => p == "/a/x") =
      (1, some "/a/x") := by
  have h := (whereis_resolution ["/o", "/a"] "x" (fun p => p == "/a/x")).2
    (by decide) (by decide)
  rw [h]
  rfl

/-! ## Builtin-dispatch lemmas (C4) -/

/-- Counterexample for C4 as stated: the pipe-separator rewrite runs before
the builtin check, so `cd` with second token "|d" (a legal directory name)
does NOT use the second token as target — the slot has been rewritten to
NULL and the directory change goes to HOME instead. -/
theorem cmd_arr_cd_pipe_counterexample :
    priv_usch_cmd_arr ["cd", "|d"] (some "/home/u")
        (fun _ => ⟨[], 1⟩) = ⟨[some "/home/u"], 0⟩ ∧
    (some "/home/u" : Option String) ≠ some "|d" := by
  exact ⟨rfl, by decide⟩

/-- C4 (amended): whenever the first expanded token is literally "cd", the
directory change happens in the calling process with no fork — whatever
the fork/exec path would do — and the target is the second token, unless
that token is absent or begins with the pipe byte `'|'` (rewritten to NULL
before the builtin check), in which case the HOME value is used. -/
theorem cmd_arr_cd_builtin (argv : List String) (home : Option String)
    (pipeline : List (Option String) → CmdEffects)
    (h : argv.head? = some "cd") :
    priv_usch_cmd_arr argv home pipeline =
      { chdirCalls := [match argv[1]? with
          | some t => if t.data.head? = some '|' then home else some t
          | none => home],
        spawnCount := 0 } := by
  cases argv with
  | nil => exact absurd h (by simp)
  | cons a rest =>
      have ha : a = "cd" := by simpa using h
      subst ha
      have hrw : pipeRewrite ("cd" :: rest) = some "cd" :: pipeRewrite rest := by
        rfl
      unfold priv_usch_cmd_arr
      rw [hrw]
      simp only [List.head?_cons, if_pos rfl]
      cases rest with
      | nil => rfl
      | cons t ts =>
          simp only [cdTargetSlot, pipeRewrite, List.map_cons,
            List.getElem?_cons_succ, List.getElem?_cons_zero]
          cases ht : t.data with
          | nil => simp [ht]
          | cons c cs =>
              by_cases hc : c = '|'
              · simp [ht, hc]
              · simp [ht, hc]

/-- Witness for C4 (amended): `cd` with no second token, HOME set. -/
theorem cmd_arr_cd_builtin_witness :
    priv_usch_cmd_arr ["cd"] (some "/h") (fun _ => ⟨[], 5⟩) =
      ⟨[some "/h"], 0⟩ := by
  have h := cmd_arr_cd_builtin ["cd"] (some "/h") (fun _ => ⟨[], 5⟩) rfl
  rw [h]
  rfl

/-! ## Reaper (C3) -/

/-- C3: the reaper loops past stopped/continued transitional wait states;
a normal exit returns the process's own 0-255 code, termination by signal
returns the shared negative sentinel -1, and a `waitpid` failure
immediately terminates the whole host process instead of returning an
error value. -/
theorem waitforall_maps_termination (pre rest : List WaitEvent) (c : Nat)
    (hpre : ∀ e ∈ pre, e = WaitEvent.stopped ∨ e = WaitEvent.continued)
    (hc : c < 256) :
    priv_usch_waitforall (pre ++ WaitEvent.exited c :: rest) =
      WaitOutcome.returns (Int.ofNat c) ∧
    priv_usch_waitforall (pre ++ WaitEvent.signaled :: rest) =
      WaitOutcome.returns (-1) ∧
    priv_usch_waitforall (pre ++ WaitEvent.waitfail :: rest) =
      WaitOutcome.hostExit := by
  induction pre with
  | nil =>
      refine ⟨?_, rfl, rfl⟩
      simp [priv_usch_waitforall, Nat.mod_eq_of_lt hc]
  | cons e es ih =>
      have he := hpre e (List.mem_cons_self e es)
      have hes : ∀ x ∈ es, x = WaitEvent.stopped ∨ x = WaitEvent.continued :=
        fun x hx => hpre x (List.mem_cons_of_mem e hx)
      rcases he with he | he <;> subst he <;>
        simpa [priv_usch_waitforall] using ih hes

/-- Witness for C3: two transitional states, then a normal exit with
code 7. -/
theorem waitforall_maps_termination_witness :
    priv_usch_waitforall
        [WaitEvent.stopped, WaitEvent.continued, WaitEvent.exited 7] =
      WaitOutcome.returns 7 := by
  have h := waitforall_maps_termination
    [WaitEvent.stopped, WaitEvent.continued] [] 7 (by decide) (by decide)
  simpa using h.1

/-! ## Pointer provenance (C9) -/

/-- C9: every successful call to a documented entry point returns either
the static empty sentinel or a pointer into a block that the call pushed
onto the caller's arena (`ustrjoinv` and `ustrexpv` satisfy this on every
return; `ustrsplit` on every non-NULL return, its failure paths returning
NULL — see C5). -/
theorem stash_ownership (stash : Option (List StashItem))
    (p_in p_delims : Option (List Char))
    (strings : Option (List (List Char))) (globOk allocOk : Bool)
    (fresh : StashItem) :
    ((ustrsplitPtr stash p_in p_delims allocOk fresh).1 ≠ RetPtr.null →
        ownedOrSentinel (ustrsplitPtr stash p_in p_delims allocOk fresh)) ∧
    ownedOrSentinel (ustrjoinvPtr stash strings allocOk fresh) ∧
    ownedOrSentinel (ustrexpvPtr stash globOk allocOk fresh) := by
  refine ⟨?_, ?_, ?_⟩
  · intro h
    cases stash with
    | none => exact absurd rfl h
    | some st =>
        cases p_in with
        | none => exact absurd rfl h
        | some s =>
            cases p_delims with
            | none => exact absurd rfl h
            | some d =>
                cases allocOk with
                | false => exact absurd rfl h
                | true =>
                    exact Or.inr ⟨fresh, rfl, fresh :: st, rfl,
                      List.mem_cons_self fresh st⟩
  · cases strings with
    | none => exact Or.inl rfl
    | some l =>
        cases allocOk with
        | false => exact Or.inl rfl
        | true =>
            cases stash with
            | none => exact Or.inl rfl
            | some st =>
                exact Or.inr ⟨fresh, rfl, fresh :: st, rfl,
                  List.mem_cons_self fresh st⟩
  · cases globOk with
    | false => exact Or.inl rfl
    | true =>
        cases allocOk with
        | false => exact Or.inl rfl
        | true =>
            cases stash with
            | none => exact Or.inl rfl
            | some st =>
                exact Or.inr ⟨fresh, rfl, fresh :: st, rfl,
                  List.mem_cons_self fresh st⟩

/-- Witness for C9: a successful `ustrsplit` call pushes its block and
returns a pointer into it. -/
theorem stash_ownership_witness :
    ownedOrSentinel (ustrsplitPtr (some []) (some ['a']) (some [',']) true 0) :=
  (stash_ownership (some []) (some ['a']) (some [',']) none true true 0).1
    (by decide)

end Usch
